import Mathlib

/-!
Verification of `packages/core/src/UserSettings.ts` (n8n).

The module is a process-local settings store: it resolves the on-disk
location of a small JSON settings document, loads/merges/writes that
document, keeps a module-level in-memory cache (`settingsCache`), and
provisions an encryption key on first use.

Shallow embedding conventions used throughout this file:

* A JS settings object (`IUserSettings`) is an insertion-ordered
  association list `SettingsDoc` from string keys to JSON values.
* The filesystem is a pair of a file map (path to content) and a set of
  existing directories.  `JSON.stringify`/`JSON.parse` of a settings
  document are modelled semantically: a well-formed settings file stores
  the document it serializes (`FileContent.json`), an ill-formed file
  stores its raw text (`FileContent.invalid`); parsing the former yields
  the document, parsing the latter throws.  This uses the fact that
  `JSON.parse (JSON.stringify d) = d` for JSON-representable documents.
* Every store operation threads an explicit `State` (environment,
  filesystem, `settingsCache`) and additionally returns the list of
  filesystem events (`access` / `read` / `mkdir` / `write`) it performed,
  so that claims about the number of disk accesses are statable.
* `process.env`, `process.platform` and `process.cwd()` are fields of an
  explicit `Env` record.
* The result of `randomBytes(24).toString('base64')` is passed to
  `prepareUserSettings` as an explicit `freshKey` argument.
* JS exceptions are `Except String`.
-/

/-- A JSON value, as far as the settings document needs one. -/
inductive Value where
  | str (s : String)
  | num (n : Int)
  | bool (b : Bool)
  | null
deriving DecidableEq, Repr

/-- A settings document (`IUserSettings`): a JS object modelled as an
insertion-ordered association list from string keys to JSON values. -/
abbrev SettingsDoc := List (String × Value)

/-- Property read `o[k]` on a JS object: first binding of `k`, if any. -/
def lookupKey {κ α : Type} [DecidableEq κ] : List (κ × α) → κ → Option α
  | [], _ => none
  | (k', v) :: rest, k => if k' = k then some v else lookupKey rest k

/-- Property write `o[k] = v` on a JS object: overwrite in place if the key
exists (keeping its position), otherwise append at the end. -/
def setKey {κ α : Type} [DecidableEq κ] (l : List (κ × α)) (k : κ) (v : α) : List (κ × α) :=
  if (lookupKey l k).isSome then
    l.map (fun p => if p.1 = k then (k, v) else p)
  else
    l ++ [(k, v)]

/-- `Object.assign(target, source)`: shallow top-level overwrite of the
source's keys onto the target, in the source's order. -/
def objAssign (target source : SettingsDoc) : SettingsDoc :=
  source.foldl (fun acc p => setKey acc p.1 p.2) target

/-- Modelled from the spec: the fixed settings subfolder name imported from
the package index (the index file is not in the sources). -/
def USER_SETTINGS_SUBFOLDER : String := ".n8n"

/-- Modelled from the spec: the fixed settings filename imported from the
package index (the index file is not in the sources). -/
def USER_SETTINGS_FILE_NAME : String := "config"

/-- Modelled from the spec: the fixed custom-extensions subdirectory name
imported from the package index (the index file is not in the sources). -/
def EXTENSIONS_SUBDIRECTORY : String := "custom"

abbrev FsPath := String

/-- Node's `path.join` for the two-argument, already-normalized case:
concatenation with a single separator. -/
def pathJoin (a b : FsPath) : FsPath :=
  if a = "" then b
  else if a.data.getLast? = some '/' then a ++ b
  else a ++ "/" ++ b

/-- Split a character list at `'/'` separators (the character-level model
of `String.splitOn "/"`). -/
def splitSlash : List Char → List (List Char)
  | [] => [[]]
  | c :: rest =>
      let r := splitSlash rest
      if c = '/' then [] :: r
      else
        match r with
        | [] => [[c]]
        | h :: t => (c :: h) :: t

/-- Join character-list segments with `'/'` separators. -/
def joinSlash : List (List Char) → List Char
  | [] => []
  | [x] => x
  | x :: rest => x ++ '/' :: joinSlash rest

/-- Node's `path.dirname`: everything before the last separator, `"."` for
a bare name and `"/"` below the root. -/
def dirname (p : FsPath) : FsPath :=
  let parts := (splitSlash p.data).dropLast
  if parts = [] then "."
  else if parts = [[]] then "/"
  else ⟨joinSlash parts⟩

/-- The process environment and platform, as read by the module. -/
structure Env where
  /-- `process.env[USER_FOLDER_ENV_OVERWRITE]` (`N8N_USER_FOLDER`). -/
  userFolderOverride : Option String
  /-- `process.env[ENCRYPTION_KEY_ENV_OVERWRITE]` (`N8N_ENCRYPTION_KEY`). -/
  encryptionKeyOverride : Option String
  /-- `process.env['HOME']`. -/
  home : Option String
  /-- `process.env['USERPROFILE']`. -/
  userProfile : Option String
  /-- Whether `process.platform === 'win32'`. -/
  isWin32 : Bool
  /-- `process.cwd()`. -/
  cwd : String
deriving DecidableEq, Repr

/-- `getUserHome`: platform home-directory variable, falling back to the
current working directory when unset. -/
def getUserHome (env : Env) : String :=
  let value := if env.isWin32 then env.userProfile else env.home
  match value with
  | none => env.cwd
  | some v => v

/-- `getUserN8nFolderPath`: the data folder; the user folder is the
environment override when set, else the home folder, and the fixed
subfolder is joined onto it. -/
def getUserN8nFolderPath (env : Env) : FsPath :=
  let userFolder :=
    match env.userFolderOverride with
    | some f => f
    | none => getUserHome env
  pathJoin userFolder USER_SETTINGS_SUBFOLDER

/-- `getUserSettingsPath`: the data folder joined with the settings
filename. -/
def getUserSettingsPath (env : Env) : FsPath :=
  pathJoin (getUserN8nFolderPath env) USER_SETTINGS_FILE_NAME

/-- `getUserN8nFolderCustomExtensionPath`: the data folder joined with the
custom-extensions subdirectory. -/
def getUserN8nFolderCustomExtensionPath (env : Env) : FsPath :=
  pathJoin (getUserN8nFolderPath env) EXTENSIONS_SUBDIRECTORY

/-- On-disk content of the settings file, with JSON serialization modelled
semantically: `json d` is the tab-indented serialization of `d`,
`invalid raw` is any text that is not valid JSON. -/
inductive FileContent where
  | json (d : SettingsDoc)
  | invalid (raw : String)
deriving DecidableEq, Repr

/-- The filesystem: files (path to content) and existing directories. -/
structure FS where
  files : List (FsPath × FileContent)
  dirs : List FsPath
deriving DecidableEq, Repr

/-- One filesystem call performed by the store. -/
inductive FsEvent where
  | access (p : FsPath)
  | read (p : FsPath)
  | mkdir (p : FsPath)
  | write (p : FsPath)
deriving DecidableEq, Repr

/-- `fs.access`: succeeds iff the path exists as a file or a directory. -/
def fsAccessOk (fs : FS) (p : FsPath) : Bool :=
  (lookupKey fs.files p).isSome || fs.dirs.contains p

/-- Number of `write` events in a trace. -/
def countWrites (evs : List FsEvent) : Nat :=
  evs.countP (fun e => match e with | .write _ => true | _ => false)

/-- The module's state: the process environment, the filesystem, and the
module-level `settingsCache`. -/
structure State where
  env : Env
  fs : FS
  settingsCache : Option SettingsDoc
deriving DecidableEq, Repr

/-- The parse-failure message thrown by `getUserSettings`. -/
def parseErrorMessage (settingsPath : FsPath) : String :=
  "Error parsing n8n-config file \"" ++ settingsPath ++ "\". It does not seem to be valid JSON."

/-- `getUserSettings(settingsPath?, ignoreCache?)`: returns the cache when
populated and not bypassed; otherwise resolves the path, probes existence
(absence is `none`, not an error), reads, and parses; a parse failure
throws an error naming the path without touching the cache; on success the
cache is replaced by the parsed document. -/
def getUserSettings (st : State) (settingsPath : Option FsPath) (ignoreCache : Option Bool) :
    Except String (Option SettingsDoc) × State × List FsEvent :=
  if st.settingsCache ≠ none ∧ ignoreCache ≠ some true then
    (.ok st.settingsCache, st, [])
  else
    let sp := settingsPath.getD (getUserSettingsPath st.env)
    if fsAccessOk st.fs sp then
      match lookupKey st.fs.files sp with
      | some (.json d) =>
          (.ok (some d), { st with settingsCache := some d }, [.access sp, .read sp])
      | some (.invalid _) =>
          (.error (parseErrorMessage sp), st, [.access sp, .read sp])
      | none =>
          -- the path is a directory: `fs.readFile` fails (EISDIR), unhandled
          (.error ("EISDIR: illegal operation on a directory, read " ++ sp), st,
            [.access sp, .read sp])
    else
      (.ok none, st, [.access sp])

/-- `fs.mkdir` without the recursive flag: fails if the path already exists
or its own parent is missing; otherwise creates exactly that directory. -/
def fsMkdir (fs : FS) (p : FsPath) : Except String FS :=
  if fsAccessOk fs p then
    .error ("EEXIST: file already exists, mkdir " ++ p)
  else if fs.dirs.contains (dirname p) then
    .ok { fs with dirs := p :: fs.dirs }
  else
    .error ("ENOENT: no such file or directory, mkdir " ++ p)

/-- Replace (or add) the binding of `p` in the file map. -/
def setFile (files : List (FsPath × FileContent)) (p : FsPath) (c : FileContent) :
    List (FsPath × FileContent) :=
  setKey files p c

/-- `fs.writeFile`: requires the parent directory to exist and the path not
to be a directory; replaces the file's contents. -/
def fsWriteFile (fs : FS) (p : FsPath) (c : FileContent) : Except String FS :=
  if fs.dirs.contains p then
    .error ("EISDIR: illegal operation on a directory, open " ++ p)
  else if fs.dirs.contains (dirname p) then
    .ok { fs with files := setFile fs.files p c }
  else
    .error ("ENOENT: no such file or directory, open " ++ p)

/-- `writeUserSettings(userSettings, settingsPath?)`: resolves the path,
probes the parent directory and creates it (one level only) if the probe
fails, serializes the document to the file, and replaces the cache by
`JSON.parse(JSON.stringify(userSettings))` — in this value model, the
document itself.  Returns the written document. -/
def writeUserSettings (st : State) (userSettings : SettingsDoc) (settingsPath : Option FsPath) :
    Except String SettingsDoc × State × List FsEvent :=
  let sp := settingsPath.getD (getUserSettingsPath st.env)
  let parent := dirname sp
  if fsAccessOk st.fs parent then
    match fsWriteFile st.fs sp (.json userSettings) with
    | .ok fs' =>
        (.ok userSettings, { st with fs := fs', settingsCache := some userSettings },
          [.access parent, .write sp])
    | .error e => (.error e, st, [.access parent, .write sp])
  else
    match fsMkdir st.fs parent with
    | .error e => (.error e, st, [.access parent, .mkdir parent])
    | .ok fs1 =>
        match fsWriteFile fs1 sp (.json userSettings) with
        | .ok fs' =>
            (.ok userSettings, { st with fs := fs', settingsCache := some userSettings },
              [.access parent, .mkdir parent, .write sp])
        | .error e =>
            (.error e, { st with fs := fs1 }, [.access parent, .mkdir parent, .write sp])

/-- `addToUserSettings(addSettings, settingsPath?)`: loads the current
document (absence becomes the empty document), shallow-merges
`addSettings` onto it with `Object.assign`, and writes the result. -/
def addToUserSettings (st : State) (addSettings : SettingsDoc) (settingsPath : Option FsPath) :
    Except String SettingsDoc × State × List FsEvent :=
  let sp := settingsPath.getD (getUserSettingsPath st.env)
  match getUserSettings st (some sp) none with
  | (.error e, st1, evs) => (.error e, st1, evs)
  | (.ok cur, st1, evs) =>
      let userSettings := cur.getD []
      let merged := objAssign userSettings addSettings
      let (r, st2, evs2) := writeUserSettings st1 merged (some sp)
      (r, st2, evs ++ evs2)

/-- `prepareUserSettings()`: loads the settings; if a document exists and
already has `encryptionKey`, returns it without writing; otherwise sets a
freshly generated key (`freshKey` stands for
`randomBytes(24).toString('base64')`) and writes the document. -/
def prepareUserSettings (st : State) (freshKey : String) :
    Except String SettingsDoc × State × List FsEvent :=
  let sp := getUserSettingsPath st.env
  match getUserSettings st (some sp) none with
  | (.error e, st1, evs) => (.error e, st1, evs)
  | (.ok cur, st1, evs) =>
      match cur with
      | some userSettings =>
          if (lookupKey userSettings "encryptionKey").isSome then
            (.ok userSettings, st1, evs)
          else
            let userSettings' := setKey userSettings "encryptionKey" (.str freshKey)
            let (r, st2, evs2) := writeUserSettings st1 userSettings' (some sp)
            (r, st2, evs ++ evs2)
      | none =>
          let userSettings' := setKey [] "encryptionKey" (.str freshKey)
          let (r, st2, evs2) := writeUserSettings st1 userSettings' (some sp)
          (r, st2, evs ++ evs2)

/-- `getEncryptionKey()`: the environment override, when set, is returned
directly; otherwise the persisted document's `encryptionKey` (or `none`
when the document or the key is absent). -/
def getEncryptionKey (st : State) :
    Except String (Option Value) × State × List FsEvent :=
  match st.env.encryptionKeyOverride with
  | some k => (.ok (some (.str k)), st, [])
  | none =>
      match getUserSettings st none none with
      | (.error e, st1, evs) => (.error e, st1, evs)
      | (.ok none, st1, evs) => (.ok none, st1, evs)
      | (.ok (some userSettings), st1, evs) =>
          (.ok (lookupKey userSettings "encryptionKey"), st1, evs)

/-- A tiny heap of mutable JS objects, keyed by reference.  It serves to
state the aliasing consequence of the cache assignment in
`writeUserSettings` (`settingsCache = JSON.parse(JSON.stringify(userSettings))`):
the cache must hold a fresh object, not the caller's reference. -/
structure Heap where
  cells : List (Nat × SettingsDoc)
  nextRef : Nat
deriving DecidableEq, Repr

/-- Read the object a reference points to. -/
def heapGet (h : Heap) (r : Nat) : Option SettingsDoc :=
  lookupKey h.cells r

/-- In-place mutation of the object a reference points to. -/
def heapSet (h : Heap) (r : Nat) (d : SettingsDoc) : Heap :=
  { h with cells := h.cells.map (fun p => if p.1 = r then (r, d) else p) }

/-- Allocate a fresh object holding `d`; returns the new reference. -/
def heapAlloc (h : Heap) (d : SettingsDoc) : Heap × Nat :=
  ({ cells := h.cells ++ [(h.nextRef, d)], nextRef := h.nextRef + 1 }, h.nextRef)

/-- Every allocated reference is below `nextRef`. -/
def Heap.WF (h : Heap) : Prop :=
  ∀ p ∈ h.cells, p.1 < h.nextRef

/-- The cache assignment of `writeUserSettings` in the heap model: the cache
receives a freshly allocated object holding the deep copy
`JSON.parse(JSON.stringify(·))` of the caller's object — in this value
model, the caller's object's current value — never the caller's own
reference. -/
def cacheAssignDeepCopy (h : Heap) (callerRef : Nat) : Heap × Nat :=
  heapAlloc h ((heapGet h callerRef).getD [])

/-- A POSIX-like environment with no overrides, for concrete scenarios. -/
def baseEnv : Env :=
  { userFolderOverride := none, encryptionKeyOverride := none,
    home := some "/home/u", userProfile := none, isWin32 := false, cwd := "/cwd" }

/-- `baseEnv` with the data-folder override variable set. -/
def overrideEnv : Env := { baseEnv with userFolderOverride := some "/custom" }

/-- The settings path resolved under `baseEnv`. -/
def basePath : FsPath := "/home/u/.n8n/config"

/-- A store with an empty cache, no settings file, and the data folder
already present on disk. -/
def baseState : State :=
  { env := baseEnv,
    fs := { files := [], dirs := ["/", "/home", "/home/u", "/home/u/.n8n"] },
    settingsCache := none }

/-- `baseState` with an ill-formed settings file on disk. -/
def invalidFileState : State :=
  { baseState with
      fs := { files := [(basePath, .invalid "\x7bnot valid json")], dirs := baseState.fs.dirs } }

/-- The store after merging `{a:1}` into the fresh concrete store. -/
def mergedA : State := (addToUserSettings baseState [("a", .num 1)] none).2.1

/-- The store after further merging `{b:2}`. -/
def mergedAB : State := (addToUserSettings mergedA [("b", .num 2)] none).2.1

/-- A store whose environment sets the encryption-key override to `"X"`
while a different key `"Y"` is persisted on disk. -/
def keyOverrideState : State :=
  { env := { baseEnv with encryptionKeyOverride := some "X" },
    fs := { files := [(basePath, .json [("encryptionKey", .str "Y")])],
            dirs := ["/", "/home", "/home/u", "/home/u/.n8n"] },
    settingsCache := none }

/-- A store whose data folder (the settings file's parent) is missing but
whose grandparent folder exists. -/
def missingParentState : State :=
  { env := baseEnv,
    fs := { files := [], dirs := ["/", "/home", "/home/u"] },
    settingsCache := none }

/-- A store whose data folder and its parent are both missing. -/
def missingGrandparentState : State :=
  { env := baseEnv,
    fs := { files := [], dirs := ["/", "/home"] },
    settingsCache := none }

/-- A one-object heap for the concrete aliasing witness. -/
def testHeap : Heap := { cells := [(0, [("a", .num 1)])], nextRef := 1 }

section AssocLemmas

variable {kk aa : Type} [DecidableEq kk]

theorem lookupKey_nil (k : kk) : lookupKey ([] : List (kk × aa)) k = none := rfl

theorem lookupKey_cons (a : kk) (b : aa) (l : List (kk × aa)) (k : kk) :
    lookupKey ((a, b) :: l) k = if a = k then some b else lookupKey l k := rfl

theorem lookupKey_append (l l' : List (kk × aa)) (k : kk) :
    lookupKey (l ++ l') k =
      match lookupKey l k with
      | some v => some v
      | none => lookupKey l' k := by
  induction l with
  | nil => rfl
  | cons p rest ih =>
      obtain ⟨a, b⟩ := p
      by_cases ha : a = k
      · simp [lookupKey_cons, ha]
      · simp only [List.cons_append, lookupKey_cons, if_neg ha]
        exact ih

theorem lookupKey_map_overwrite (l : List (kk × aa)) (k k' : kk) (v : aa) :
    lookupKey (l.map (fun p => if p.1 = k then (k, v) else p)) k' =
      if k = k' then (lookupKey l k).map (fun _ => v) else lookupKey l k' := by
  induction l with
  | nil => by_cases hk : k = k' <;> simp [lookupKey_nil, hk]
  | cons p rest ih =>
      obtain ⟨a, b⟩ := p
      have hbeta : (fun p : kk × aa => if p.1 = k then (k, v) else p) (a, b)
          = if a = k then (k, v) else (a, b) := rfl
      simp only [List.map_cons, hbeta]
      by_cases ha : a = k
      · by_cases hk : k = k'
        · subst hk
          simp [lookupKey_cons, ha, ih]
        · have hak : ¬ a = k' := fun he => hk (ha.symm.trans he)
          simp [lookupKey_cons, ha, hk, hak, ih]
      · by_cases hk : k = k'
        · subst hk
          have hak : ¬ a = k := ha
          simp [lookupKey_cons, hak, ih]
        · by_cases hak : a = k'
          · have hka : ¬ k' = k := fun he => hk he.symm
            simp [lookupKey_cons, ha, hk, hak, hka, ih]
          · simp [lookupKey_cons, ha, hk, hak, ih]

theorem lookupKey_setKey (l : List (kk × aa)) (k k' : kk) (v : aa) :
    lookupKey (setKey l k v) k' = if k = k' then some v else lookupKey l k' := by
  unfold setKey
  by_cases hs : (lookupKey l k).isSome
  · rw [if_pos hs, lookupKey_map_overwrite]
    by_cases hk : k = k'
    · subst hk
      obtain ⟨w, hw⟩ := Option.isSome_iff_exists.mp hs
      simp [hw]
    · simp [hk]
  · rw [if_neg hs, lookupKey_append]
    have hnone : lookupKey l k = none := Option.not_isSome_iff_eq_none.mp hs
    by_cases hk : k = k'
    · subst hk
      simp [hnone, lookupKey_cons]
    · cases hl : lookupKey l k' with
      | some w => simp [hl, hk]
      | none => simp [hl, hk, lookupKey_cons, lookupKey_nil]

theorem lookupKey_setKey_self (l : List (kk × aa)) (k : kk) (v : aa) :
    lookupKey (setKey l k v) k = some v := by
  rw [lookupKey_setKey, if_pos rfl]

theorem lookupKey_setKey_ne (l : List (kk × aa)) {k k' : kk} (v : aa) (h : k ≠ k') :
    lookupKey (setKey l k v) k' = lookupKey l k' := by
  rw [lookupKey_setKey, if_neg h]

end AssocLemmas

theorem objAssign_nil (t : SettingsDoc) : objAssign t [] = t := rfl

theorem objAssign_cons (t : SettingsDoc) (k : String) (v : Value) (rest : SettingsDoc) :
    objAssign t ((k, v) :: rest) = objAssign (setKey t k v) rest := rfl

/-- Top-level keys not mentioned by the merge source keep their value. -/
theorem objAssign_lookup_of_not_mem (t s : SettingsDoc) (k : String)
    (h : k ∉ s.map Prod.fst) : lookupKey (objAssign t s) k = lookupKey t k := by
  induction s generalizing t with
  | nil => rfl
  | cons p rest ih =>
      obtain ⟨a, v⟩ := p
      simp only [List.map_cons, List.mem_cons] at h
      push_neg at h
      obtain ⟨hne, hrest⟩ := h
      rw [objAssign_cons, ih (setKey t a v) hrest]
      exact lookupKey_setKey_ne t v (Ne.symm hne)

/-- Keys of a duplicate-free merge source end up with the source's value. -/
theorem objAssign_lookup_of_mem (t s : SettingsDoc) (k : String) (v : Value)
    (hnd : (s.map Prod.fst).Nodup) (h : lookupKey s k = some v) :
    lookupKey (objAssign t s) k = some v := by
  induction s generalizing t with
  | nil => simp [lookupKey_nil] at h
  | cons p rest ih =>
      obtain ⟨a, w⟩ := p
      simp only [List.map_cons, List.nodup_cons] at hnd
      obtain ⟨hna, hndr⟩ := hnd
      rw [objAssign_cons]
      by_cases ha : a = k
      · subst ha
        rw [lookupKey_cons, if_pos rfl] at h
        have hv := Option.some.inj h
        subst hv
        rw [objAssign_lookup_of_not_mem _ _ _ hna]
        exact lookupKey_setKey_self t a w
      · rw [lookupKey_cons, if_neg ha] at h
        exact ih _ hndr h

/-- A populated cache is returned as-is when not bypassed, with no
filesystem calls. -/
theorem getUserSettings_cacheHit (st : State) (c : SettingsDoc) (sp : Option FsPath)
    (ic : Option Bool) (hc : st.settingsCache = some c) (hic : ic ≠ some true) :
    getUserSettings st sp ic = (.ok (some c), st, []) := by
  unfold getUserSettings
  rw [if_pos ⟨by simp [hc], hic⟩, hc]

/-- Cache miss, well-formed file: the document is read, parsed, cached and
returned. -/
theorem getUserSettings_disk_json (st : State) (sp : FsPath) (ic : Option Bool)
    (d : SettingsDoc) (hcm : st.settingsCache = none ∨ ic = some true)
    (hf : lookupKey st.fs.files sp = some (.json d)) :
    getUserSettings st (some sp) ic =
      (.ok (some d), { st with settingsCache := some d }, [.access sp, .read sp]) := by
  have hneg : ¬ (st.settingsCache ≠ none ∧ ic ≠ some true) := by
    rintro ⟨h1, h2⟩
    cases hcm with
    | inl h => exact h1 h
    | inr h => exact h2 h
  have hacc : fsAccessOk st.fs sp = true := by simp [fsAccessOk, hf]
  unfold getUserSettings
  rw [if_neg hneg]
  simp only [Option.getD_some, hacc, if_true, hf]

/-- Cache miss, ill-formed file: the parse failure is thrown with the path
named, and the state is unchanged. -/
theorem getUserSettings_disk_invalid (st : State) (sp : FsPath) (ic : Option Bool)
    (raw : String) (hcm : st.settingsCache = none ∨ ic = some true)
    (hf : lookupKey st.fs.files sp = some (.invalid raw)) :
    getUserSettings st (some sp) ic =
      (.error (parseErrorMessage sp), st, [.access sp, .read sp]) := by
  have hneg : ¬ (st.settingsCache ≠ none ∧ ic ≠ some true) := by
    rintro ⟨h1, h2⟩
    cases hcm with
    | inl h => exact h1 h
    | inr h => exact h2 h
  have hacc : fsAccessOk st.fs sp = true := by simp [fsAccessOk, hf]
  unfold getUserSettings
  rw [if_neg hneg]
  simp only [Option.getD_some, hacc, if_true, hf]

/-- Cache miss, absent file: absence is reported as `none`, not an error. -/
theorem getUserSettings_disk_absent (st : State) (sp : FsPath) (ic : Option Bool)
    (hcm : st.settingsCache = none ∨ ic = some true)
    (hacc : fsAccessOk st.fs sp = false) :
    getUserSettings st (some sp) ic = (.ok none, st, [.access sp]) := by
  have hneg : ¬ (st.settingsCache ≠ none ∧ ic ≠ some true) := by
    rintro ⟨h1, h2⟩
    cases hcm with
    | inl h => exact h1 h
    | inr h => exact h2 h
  unfold getUserSettings
  rw [if_neg hneg]
  simp only [Option.getD_some, hacc, Bool.false_eq_true, if_false]

theorem fsWriteFile_ok_inv {fs : FS} {p : FsPath} {c : FileContent} {fs' : FS}
    (h : fsWriteFile fs p c = .ok fs') :
    fs' = { fs with files := setFile fs.files p c } := by
  unfold fsWriteFile at h
  split at h
  · exact absurd h (by simp)
  · split at h
    · exact (Except.ok.inj h).symm
    · exact absurd h (by simp)

theorem fsMkdir_ok_inv {fs : FS} {p : FsPath} {fs' : FS}
    (h : fsMkdir fs p = .ok fs') :
    fs' = { fs with dirs := p :: fs.dirs } := by
  unfold fsMkdir at h
  split at h
  · exact absurd h (by simp)
  · split at h
    · exact (Except.ok.inj h).symm
    · exact absurd h (by simp)

/-- Whenever `writeUserSettings` succeeds it returns the document it was
given, caches that document, leaves the environment alone, stores the
serialized document at the resolved path, and performs exactly one disk
write. -/
theorem writeUserSettings_ok_inv {st : State} {S d : SettingsDoc} {sp : Option FsPath}
    {st' : State} {evs : List FsEvent}
    (h : writeUserSettings st S sp = (.ok d, st', evs)) :
    d = S ∧ st'.settingsCache = some S ∧ st'.env = st.env ∧
      lookupKey st'.fs.files (sp.getD (getUserSettingsPath st.env)) = some (.json S) ∧
      countWrites evs = 1 := by
  simp only [writeUserSettings] at h
  split at h
  · split at h
    · rename_i fs' hfs
      simp only [Prod.mk.injEq, Except.ok.injEq] at h
      obtain ⟨rfl, rfl, rfl⟩ := h
      have hfs' := fsWriteFile_ok_inv hfs
      subst hfs'
      refine ⟨rfl, rfl, rfl, lookupKey_setKey_self _ _ _, ?_⟩
      simp [countWrites, List.countP_cons, List.countP_nil]
    · simp only [Prod.mk.injEq] at h
      exact absurd h.1 (by simp)
  · split at h
    · simp only [Prod.mk.injEq] at h
      exact absurd h.1 (by simp)
    · rename_i fs1 hmk
      split at h
      · rename_i fs' hfs
        simp only [Prod.mk.injEq, Except.ok.injEq] at h
        obtain ⟨rfl, rfl, rfl⟩ := h
        have hfs' := fsWriteFile_ok_inv hfs
        subst hfs'
        refine ⟨rfl, rfl, rfl, lookupKey_setKey_self _ _ _, ?_⟩
        simp [countWrites, List.countP_cons, List.countP_nil]
      · simp only [Prod.mk.injEq] at h
        exact absurd h.1 (by simp)

/-- Resolving the optional path argument commutes with the call. -/
theorem getUserSettings_resolve (st : State) (sp : Option FsPath) (ic : Option Bool) :
    getUserSettings st sp ic =
      getUserSettings st (some (sp.getD (getUserSettingsPath st.env))) ic := by
  cases sp <;> rfl

/-- A record update writing the value a field already has is the identity. -/
theorem State.setCache_eq_self {st : State} {c : Option SettingsDoc}
    (h : st.settingsCache = c) : { st with settingsCache := c } = st := by
  cases st
  cases h
  rfl

/-- `getUserSettings` never writes to disk and never changes the
environment or the filesystem. -/
theorem getUserSettings_no_writes {st : State} {sp : Option FsPath} {ic : Option Bool}
    {r : Except String (Option SettingsDoc)} {st' : State} {evs : List FsEvent}
    (h : getUserSettings st sp ic = (r, st', evs)) :
    countWrites evs = 0 ∧ st'.env = st.env ∧ st'.fs = st.fs := by
  simp only [getUserSettings] at h
  split at h
  · simp only [Prod.mk.injEq] at h
    obtain ⟨-, rfl, rfl⟩ := h
    exact ⟨rfl, rfl, rfl⟩
  · split at h
    · split at h <;>
        · simp only [Prod.mk.injEq] at h
          obtain ⟨-, rfl, rfl⟩ := h
          exact ⟨rfl, rfl, rfl⟩
    · simp only [Prod.mk.injEq] at h
      obtain ⟨-, rfl, rfl⟩ := h
      exact ⟨rfl, rfl, rfl⟩

/-- A `getUserSettings` call that throws leaves the whole state (cache
included) unchanged. -/
theorem getUserSettings_error_inv {st : State} {sp : Option FsPath} {ic : Option Bool}
    {e : String} {st' : State} {evs : List FsEvent}
    (h : getUserSettings st sp ic = (.error e, st', evs)) : st' = st := by
  simp only [getUserSettings] at h
  split at h
  · simp only [Prod.mk.injEq] at h
    exact absurd h.1 (by simp)
  · split at h
    · split at h
      · simp only [Prod.mk.injEq] at h
        exact absurd h.1 (by simp)
      · simp only [Prod.mk.injEq] at h
        exact h.2.1.symm
      · simp only [Prod.mk.injEq] at h
        exact h.2.1.symm
    · simp only [Prod.mk.injEq] at h
      exact absurd h.1 (by simp)

/-- A `getUserSettings` call that returns a document leaves that document
in the cache. -/
theorem getUserSettings_ok_some_inv {st : State} {sp : Option FsPath} {ic : Option Bool}
    {d : SettingsDoc} {st' : State} {evs : List FsEvent}
    (h : getUserSettings st sp ic = (.ok (some d), st', evs)) :
    st'.settingsCache = some d := by
  simp only [getUserSettings] at h
  split at h
  · rename_i hcond
    simp only [Prod.mk.injEq, Except.ok.injEq] at h
    obtain ⟨h1, rfl, -⟩ := h
    exact h1
  · split at h
    · split at h
      · simp only [Prod.mk.injEq, Except.ok.injEq, Option.some.injEq] at h
        obtain ⟨rfl, rfl, -⟩ := h
        rfl
      · simp only [Prod.mk.injEq] at h
        exact absurd h.1 (by simp)
      · simp only [Prod.mk.injEq] at h
        exact absurd h.1 (by simp)
    · simp only [Prod.mk.injEq, Except.ok.injEq] at h
      exact absurd h.1 (by simp)

/-- When only the immediate parent folder is missing (its own parent
exists), `writeUserSettings` creates it and the write succeeds. -/
theorem writeUserSettings_parent_missing_ok (st : State) (S : SettingsDoc) (sp : FsPath)
    (haccp : fsAccessOk st.fs (dirname sp) = false)
    (hgp : st.fs.dirs.contains (dirname (dirname sp)) = true)
    (hspd : st.fs.dirs.contains sp = false)
    (hne : sp ≠ dirname sp) :
    writeUserSettings st S (some sp) =
      (.ok S,
        { st with
            fs := { files := setFile st.fs.files sp (.json S),
                    dirs := dirname sp :: st.fs.dirs },
            settingsCache := some S },
        [.access (dirname sp), .mkdir (dirname sp), .write sp]) := by
  have hgp' : dirname (dirname sp) ∈ st.fs.dirs := by simpa using hgp
  have hmk : fsMkdir st.fs (dirname sp) = .ok { st.fs with dirs := dirname sp :: st.fs.dirs } := by
    unfold fsMkdir
    rw [haccp]
    simp [hgp']
  have hbe : (sp == dirname sp) = false := beq_eq_false_iff_ne.mpr hne
  have hw : fsWriteFile { st.fs with dirs := dirname sp :: st.fs.dirs } sp (.json S) =
      .ok { files := setFile st.fs.files sp (.json S), dirs := dirname sp :: st.fs.dirs } := by
    unfold fsWriteFile
    simp only [List.contains_cons, hbe, hspd, Bool.or_self, Bool.false_eq_true, if_false]
    simp [List.contains_cons]
  simp only [writeUserSettings, Option.getD_some, haccp, Bool.false_eq_true, if_false, hmk, hw]

/-- When the grandparent folder is missing too, the one-level `fs.mkdir`
fails and `writeUserSettings` propagates the error. -/
theorem writeUserSettings_grandparent_missing_error (st : State) (S : SettingsDoc) (sp : FsPath)
    (haccp : fsAccessOk st.fs (dirname sp) = false)
    (hgp : st.fs.dirs.contains (dirname (dirname sp)) = false) :
    writeUserSettings st S (some sp) =
      (.error ("ENOENT: no such file or directory, mkdir " ++ dirname sp), st,
        [.access (dirname sp), .mkdir (dirname sp)]) := by
  have hgp' : dirname (dirname sp) ∉ st.fs.dirs := by simpa using hgp
  have hmk : fsMkdir st.fs (dirname sp) =
      .error ("ENOENT: no such file or directory, mkdir " ++ dirname sp) := by
    unfold fsMkdir
    rw [haccp]
    simp [hgp']
  simp only [writeUserSettings, Option.getD_some, haccp, Bool.false_eq_true, if_false, hmk]

/-- When the parent directory already exists and the target is not itself a
directory, `writeUserSettings` writes directly, with no `mkdir`. -/
theorem writeUserSettings_parent_exists_ok (st : State) (S : SettingsDoc) (sp : FsPath)
    (hp : st.fs.dirs.contains (dirname sp) = true)
    (hspd : st.fs.dirs.contains sp = false) :
    writeUserSettings st S (some sp) =
      (.ok S,
        { st with
            fs := { files := setFile st.fs.files sp (.json S), dirs := st.fs.dirs },
            settingsCache := some S },
        [.access (dirname sp), .write sp]) := by
  have hp' : dirname sp ∈ st.fs.dirs := by simpa using hp
  have hspd' : sp ∉ st.fs.dirs := by simpa using hspd
  have haccp : fsAccessOk st.fs (dirname sp) = true := by
    simp [fsAccessOk, hp']
  have hw : fsWriteFile st.fs sp (.json S) =
      .ok { files := setFile st.fs.files sp (.json S), dirs := st.fs.dirs } := by
    unfold fsWriteFile
    simp [hspd', hp']
  simp only [writeUserSettings, Option.getD_some, haccp, if_true, hw]

/-- C1, counterexample: with the data-folder override set to `"/custom"`,
`getUserN8nFolderPath` does not return the override verbatim — the fixed
subfolder name is joined onto it. -/
theorem getUserN8nFolderPath_override_not_verbatim :
    overrideEnv.userFolderOverride = some "/custom" ∧
    getUserN8nFolderPath overrideEnv ≠ "/custom" ∧
    getUserN8nFolderPath overrideEnv = pathJoin "/custom" USER_SETTINGS_SUBFOLDER := by
  refine ⟨rfl, ?_, rfl⟩
  decide

/-- C1, amended: for every environment in which the data-folder override
variable is set, `getUserN8nFolderPath` returns the override value with the
fixed subfolder name joined onto it — the override substitutes for the
home folder only, and the subfolder is appended in both cases; only when
the override is unset is `getUserHome()` consulted. -/
theorem getUserN8nFolderPath_override_joined (env : Env) (f : String)
    (h : env.userFolderOverride = some f) :
    getUserN8nFolderPath env = pathJoin f USER_SETTINGS_SUBFOLDER ∧
    (env.userFolderOverride = none →
      getUserN8nFolderPath env = pathJoin (getUserHome env) USER_SETTINGS_SUBFOLDER) := by
  constructor
  · unfold getUserN8nFolderPath
    rw [h]
  · intro h0
    rw [h] at h0
    exact absurd h0 (by simp)

/-- C1, witness for the amended claim at a concrete environment. -/
theorem getUserN8nFolderPath_override_joined_witness :
    getUserN8nFolderPath overrideEnv = pathJoin "/custom" USER_SETTINGS_SUBFOLDER :=
  (getUserN8nFolderPath_override_joined overrideEnv "/custom" rfl).1

/-- A successful `addToUserSettings` decomposes into a load and a write of
the shallow merge of the loaded document (absence = empty document) with
the argument. -/
theorem addToUserSettings_ok_inv {st : State} {add : SettingsDoc} {sp : Option FsPath}
    {d : SettingsDoc} {st' : State} {evs : List FsEvent}
    (h : addToUserSettings st add sp = (.ok d, st', evs)) :
    ∃ cur st1 evs1 evs2,
      getUserSettings st (some (sp.getD (getUserSettingsPath st.env))) none
        = (.ok cur, st1, evs1) ∧
      writeUserSettings st1 (objAssign (cur.getD []) add)
          (some (sp.getD (getUserSettingsPath st.env))) = (.ok d, st', evs2) ∧
      evs = evs1 ++ evs2 := by
  simp only [addToUserSettings] at h
  split at h
  · simp only [Prod.mk.injEq] at h
    exact absurd h.1 (by simp)
  · rename_i cur st1 evs1 heq
    simp only [Prod.mk.injEq] at h
    obtain ⟨h1, h2, h3⟩ := h
    refine ⟨cur, st1, evs1,
      (writeUserSettings st1 (objAssign (cur.getD []) add)
        (some (sp.getD (getUserSettingsPath st.env)))).2.2, heq, ?_, h3.symm⟩
    rw [← h1, ← h2]

/-- A successful `prepareUserSettings` is either a pure return of a loaded
document that already has the key, or a write of the loaded (or empty)
document with a fresh key set. -/
theorem prepareUserSettings_ok_inv {st : State} {fk : String} {d : SettingsDoc}
    {st' : State} {evs : List FsEvent}
    (h : prepareUserSettings st fk = (.ok d, st', evs)) :
    ∃ cur st1 evs1,
      getUserSettings st (some (getUserSettingsPath st.env)) none = (.ok cur, st1, evs1) ∧
      ((∃ us, cur = some us ∧ (lookupKey us "encryptionKey").isSome ∧
          d = us ∧ st' = st1 ∧ evs = evs1) ∨
       (∃ evs2,
          writeUserSettings st1 (setKey (cur.getD []) "encryptionKey" (.str fk))
              (some (getUserSettingsPath st.env)) = (.ok d, st', evs2) ∧
          evs = evs1 ++ evs2)) := by
  simp only [prepareUserSettings] at h
  split at h
  · simp only [Prod.mk.injEq] at h
    exact absurd h.1 (by simp)
  · rename_i cur st1 evs1 heq
    split at h
    · rename_i us
      split at h
      · rename_i hkey
        simp only [Prod.mk.injEq, Except.ok.injEq] at h
        obtain ⟨h1, rfl, rfl⟩ := h
        exact ⟨some us, st1, evs1, heq, .inl ⟨us, rfl, hkey, h1.symm, rfl, rfl⟩⟩
      · simp only [Prod.mk.injEq] at h
        obtain ⟨h1, h2, h3⟩ := h
        refine ⟨some us, st1, evs1, heq, .inr
          ⟨(writeUserSettings st1 (setKey us "encryptionKey" (.str fk))
              (some (getUserSettingsPath st.env))).2.2, ?_, h3.symm⟩⟩
        rw [← h1, ← h2]
        rfl
    · simp only [Prod.mk.injEq] at h
      obtain ⟨h1, h2, h3⟩ := h
      refine ⟨none, st1, evs1, heq, .inr
        ⟨(writeUserSettings st1 (setKey [] "encryptionKey" (.str fk))
            (some (getUserSettingsPath st.env))).2.2, ?_, h3.symm⟩⟩
      rw [← h1, ← h2]
      rfl

/-- After any successful `prepareUserSettings` the cache holds the returned
document and that document has an `encryptionKey`. -/
theorem prepareUserSettings_ok_cached {st : State} {fk : String} {d : SettingsDoc}
    {st' : State} {evs : List FsEvent}
    (h : prepareUserSettings st fk = (.ok d, st', evs)) :
    st'.settingsCache = some d ∧ (lookupKey d "encryptionKey").isSome := by
  obtain ⟨cur, st1, evs1, hload, hbr⟩ := prepareUserSettings_ok_inv h
  cases hbr with
  | inl hret =>
      obtain ⟨us, rfl, hkey, rfl, rfl, rfl⟩ := hret
      exact ⟨getUserSettings_ok_some_inv hload, hkey⟩
  | inr hwr =>
      obtain ⟨evs2, hw, rfl⟩ := hwr
      obtain ⟨rfl, hcache, -, -, -⟩ := writeUserSettings_ok_inv hw
      exact ⟨hcache, by rw [lookupKey_setKey_self]; rfl⟩

theorem countWrites_append (a b : List FsEvent) :
    countWrites (a ++ b) = countWrites a + countWrites b :=
  List.countP_append _ _ _

/-- C2: (1) whenever the loaded settings document exists and already has an
`encryptionKey`, `prepareUserSettings` returns that document unchanged,
performs no disk write, and leaves the filesystem untouched — a persisted
key is never regenerated or overwritten; (2) immediately after any
successful call, a second call returns the identical document (hence the
identical `encryptionKey`) with no filesystem calls at all; (3) from a
fresh store (empty cache, no settings file) a successful first call
performs exactly one disk write — so the two calls together write exactly
once. -/
theorem prepareUserSettings_idempotent :
    (∀ (st : State) (fk : String) (us : SettingsDoc) (st1 : State) (evs1 : List FsEvent),
      getUserSettings st (some (getUserSettingsPath st.env)) none = (.ok (some us), st1, evs1) →
      (lookupKey us "encryptionKey").isSome →
      prepareUserSettings st fk = (.ok us, st1, evs1) ∧ countWrites evs1 = 0 ∧ st1.fs = st.fs)
    ∧
    (∀ (st : State) (fk1 fk2 : String) (d1 : SettingsDoc) (st1 : State) (evs1 : List FsEvent),
      prepareUserSettings st fk1 = (.ok d1, st1, evs1) →
      prepareUserSettings st1 fk2 = (.ok d1, st1, []))
    ∧
    (∀ (st : State) (fk : String) (d1 : SettingsDoc) (st1 : State) (evs1 : List FsEvent),
      st.settingsCache = none →
      fsAccessOk st.fs (getUserSettingsPath st.env) = false →
      prepareUserSettings st fk = (.ok d1, st1, evs1) →
      countWrites evs1 = 1) := by
  refine ⟨?_, ?_, ?_⟩
  · intro st fk us st1 evs1 hload hkey
    obtain ⟨hnw, henv, hfs⟩ := getUserSettings_no_writes hload
    refine ⟨?_, hnw, hfs⟩
    simp only [prepareUserSettings]
    rw [hload]
    dsimp only
    rw [hkey]
    rfl
  · intro st fk1 fk2 d1 st1 evs1 h1
    obtain ⟨hcache, hkey⟩ := prepareUserSettings_ok_cached h1
    have hload2 : getUserSettings st1 (some (getUserSettingsPath st1.env)) none
        = (.ok (some d1), st1, []) :=
      getUserSettings_cacheHit st1 d1 _ none hcache (by simp)
    simp only [prepareUserSettings]
    rw [hload2]
    dsimp only
    rw [hkey]
    rfl
  · intro st fk d1 st1 evs1 hc hacc h1
    obtain ⟨cur, st1', evs1', hload, hbr⟩ := prepareUserSettings_ok_inv h1
    have habs : getUserSettings st (some (getUserSettingsPath st.env)) none
        = (.ok none, st, [.access (getUserSettingsPath st.env)]) :=
      getUserSettings_disk_absent st _ none (Or.inl hc) hacc
    rw [habs] at hload
    simp only [Prod.mk.injEq, Except.ok.injEq] at hload
    obtain ⟨hcur, hst, hevs⟩ := hload
    cases hbr with
    | inl hret =>
        obtain ⟨us, hcur2, -, -, -, -⟩ := hret
        rw [← hcur] at hcur2
        exact absurd hcur2 (by simp)
    | inr hwr =>
        obtain ⟨evs2, hw, rfl⟩ := hwr
        obtain ⟨-, -, -, -, hcw⟩ := writeUserSettings_ok_inv hw
        rw [countWrites_append, hcw, ← hevs]
        rfl

/-- C2, witness: from a fresh concrete store, the first call writes once,
the second call returns the identical key with no filesystem calls, and a
hit on a document that already has a key is a write-free no-op. -/
theorem prepareUserSettings_idempotent_witness :
    prepareUserSettings (prepareUserSettings baseState "KEY1").2.1 "KEY2"
      = (.ok [("encryptionKey", .str "KEY1")], (prepareUserSettings baseState "KEY1").2.1, []) ∧
    countWrites (prepareUserSettings baseState "KEY1").2.2 = 1 ∧
    prepareUserSettings (prepareUserSettings baseState "KEY1").2.1 "KEY3"
      = (.ok [("encryptionKey", .str "KEY1")], (prepareUserSettings baseState "KEY1").2.1, []) := by
  refine ⟨?_, ?_, ?_⟩
  · exact prepareUserSettings_idempotent.2.1 baseState "KEY1" "KEY2"
      [("encryptionKey", .str "KEY1")] (prepareUserSettings baseState "KEY1").2.1
      (prepareUserSettings baseState "KEY1").2.2 rfl
  · exact prepareUserSettings_idempotent.2.2 baseState "KEY1"
      [("encryptionKey", .str "KEY1")] (prepareUserSettings baseState "KEY1").2.1
      (prepareUserSettings baseState "KEY1").2.2 rfl rfl rfl
  · exact (prepareUserSettings_idempotent.1 (prepareUserSettings baseState "KEY1").2.1 "KEY3"
      [("encryptionKey", .str "KEY1")] (prepareUserSettings baseState "KEY1").2.1
      [] rfl rfl).1

/-- C3: `addToUserSettings` shallow-merges the argument onto the loaded
document, treating absence as the empty document: starting empty, merging
`{a:1}`, then `{b:2}`, then `{a:3}` yields `{a:1}`, `{a:1,b:2}` and
`{a:3,b:2}`; in general, over any successful merge, top-level keys absent
from the argument keep their loaded value, and keys of a duplicate-free
argument take the argument's value. -/
theorem addToUserSettings_shallow_merge :
    ((addToUserSettings baseState [("a", .num 1)] none).1 = .ok [("a", .num 1)] ∧
     (addToUserSettings mergedA [("b", .num 2)] none).1 = .ok [("a", .num 1), ("b", .num 2)] ∧
     (addToUserSettings mergedAB [("a", .num 3)] none).1 = .ok [("a", .num 3), ("b", .num 2)])
    ∧
    (∀ (st : State) (add : SettingsDoc) (sp : Option FsPath) (d : SettingsDoc)
        (st' : State) (evs : List FsEvent) (cur : Option SettingsDoc) (st1 : State)
        (evs1 : List FsEvent),
      getUserSettings st (some (sp.getD (getUserSettingsPath st.env))) none
        = (.ok cur, st1, evs1) →
      addToUserSettings st add sp = (.ok d, st', evs) →
      (∀ k, k ∉ add.map Prod.fst → lookupKey d k = lookupKey (cur.getD []) k) ∧
      (∀ k v, (add.map Prod.fst).Nodup → lookupKey add k = some v → lookupKey d k = some v)) := by
  constructor
  · exact ⟨rfl, rfl, rfl⟩
  · intro st add sp d st' evs cur st1 evs1 hload hadd
    obtain ⟨cur', st1', evs1', evs2, hload', hw, rfl⟩ := addToUserSettings_ok_inv hadd
    have hc := hload.symm.trans hload'
    simp only [Prod.mk.injEq, Except.ok.injEq] at hc
    obtain ⟨rfl, rfl, rfl⟩ := hc
    obtain ⟨rfl, -, -, -, -⟩ := writeUserSettings_ok_inv hw
    constructor
    · intro k hk
      exact objAssign_lookup_of_not_mem _ _ _ hk
    · intro k v hnd hv
      exact objAssign_lookup_of_mem _ _ _ _ hnd hv

/-- C3, witness: in the concrete three-merge run, the final merge of
`{a:3}` overwrote `a` and preserved the untouched key `b`. -/
theorem addToUserSettings_shallow_merge_witness :
    lookupKey [("a", Value.num 3), ("b", Value.num 2)] "b"
      = lookupKey [("a", Value.num 1), ("b", Value.num 2)] "b" ∧
    lookupKey [("a", Value.num 3), ("b", Value.num 2)] "a" = some (Value.num 3) := by
  have h := addToUserSettings_shallow_merge.2 mergedAB [("a", .num 3)] none
    [("a", .num 3), ("b", .num 2)]
    (addToUserSettings mergedAB [("a", .num 3)] none).2.1
    (addToUserSettings mergedAB [("a", .num 3)] none).2.2
    (some [("a", .num 1), ("b", .num 2)]) mergedAB [] rfl rfl
  exact ⟨h.1 "b" (by decide), h.2 "a" (.num 3) (by decide) rfl⟩

/-- C4: after any successful `writeUserSettings` of a document `S`, a
`getUserSettings` with `ignoreCache = true` re-reads and re-parses the file
(one `access` and one `read` at the resolved path) and returns a document
equal to `S`. -/
theorem write_then_load_ignoreCache_roundtrip (st : State) (S d : SettingsDoc)
    (sp : Option FsPath) (st' : State) (evs : List FsEvent)
    (h : writeUserSettings st S sp = (.ok d, st', evs)) :
    getUserSettings st' sp (some true) =
      (.ok (some S), st',
        [.access (sp.getD (getUserSettingsPath st.env)),
         .read (sp.getD (getUserSettingsPath st.env))]) := by
  obtain ⟨-, hcache, henv, hfile, -⟩ := writeUserSettings_ok_inv h
  rw [getUserSettings_resolve st' sp (some true), henv,
    getUserSettings_disk_json st' (sp.getD (getUserSettingsPath st.env)) (some true) S
      (Or.inr rfl) hfile,
    State.setCache_eq_self hcache]

/-- C4, witness: concrete write of `{x:"v"}` followed by a cache-bypassing
load returns the same document. -/
theorem write_then_load_ignoreCache_roundtrip_witness :
    getUserSettings (writeUserSettings baseState [("x", .str "v")] none).2.1 none (some true) =
      (.ok (some [("x", .str "v")]),
        (writeUserSettings baseState [("x", .str "v")] none).2.1,
        [.access basePath, .read basePath]) := by
  exact write_then_load_ignoreCache_roundtrip baseState [("x", .str "v")] [("x", .str "v")]
    none (writeUserSettings baseState [("x", .str "v")] none).2.1
    (writeUserSettings baseState [("x", .str "v")] none).2.2 rfl

/-- C5: after any successful `writeUserSettings` of a document `S`, a
`getUserSettings` that does not bypass the cache returns `S` from the cache
with an empty filesystem-event trace — zero access, read, mkdir or write
calls. -/
theorem write_then_load_cached (st : State) (S d : SettingsDoc) (sp : Option FsPath)
    (st' : State) (evs : List FsEvent) (sp2 : Option FsPath) (ic : Option Bool)
    (h : writeUserSettings st S sp = (.ok d, st', evs)) (hic : ic ≠ some true) :
    getUserSettings st' sp2 ic = (.ok (some S), st', []) := by
  obtain ⟨-, hcache, -, -, -⟩ := writeUserSettings_ok_inv h
  exact getUserSettings_cacheHit st' S sp2 ic hcache hic

/-- C5, witness: concrete write of `{x:"v"}` followed by a plain load hits
the cache with no filesystem calls. -/
theorem write_then_load_cached_witness :
    getUserSettings (writeUserSettings baseState [("x", .str "v")] none).2.1 none none =
      (.ok (some [("x", .str "v")]),
        (writeUserSettings baseState [("x", .str "v")] none).2.1, []) := by
  exact write_then_load_cached baseState [("x", .str "v")] [("x", .str "v")] none
    (writeUserSettings baseState [("x", .str "v")] none).2.1
    (writeUserSettings baseState [("x", .str "v")] none).2.2 none none rfl (by simp)

/-- C6: when the encryption-key override variable is set, `getEncryptionKey`
returns the override value directly, with no filesystem events, leaving the
whole state — cache and persisted document included — unchanged, so any
later `getUserSettings` behaves exactly as before the call. -/
theorem getEncryptionKey_override_only (st : State) (k : String)
    (h : st.env.encryptionKeyOverride = some k) :
    getEncryptionKey st = (.ok (some (.str k)), st, []) ∧
    (∀ sp ic, getUserSettings (getEncryptionKey st).2.1 sp ic = getUserSettings st sp ic) := by
  have h1 : getEncryptionKey st = (.ok (some (.str k)), st, []) := by
    unfold getEncryptionKey
    rw [h]
  exact ⟨h1, fun sp ic => by rw [h1]⟩

/-- C6, witness: with the override `"X"` set and `"Y"` persisted on disk,
the effective key is `"X"` while a cache-bypassing load still reads the
persisted `"Y"` unchanged. -/
theorem getEncryptionKey_override_only_witness :
    getEncryptionKey keyOverrideState = (.ok (some (.str "X")), keyOverrideState, []) ∧
    (getUserSettings (getEncryptionKey keyOverrideState).2.1 none (some true)).1
      = .ok (some [("encryptionKey", .str "Y")]) := by
  have h := getEncryptionKey_override_only keyOverrideState "X" rfl
  refine ⟨h.1, ?_⟩
  rw [h.2 none (some true)]
  rfl

/-- C7: with the cache empty or explicitly bypassed, loading a path whose
file exists but whose content is not valid JSON throws a fatal error whose
message contains that path, after one `access` and one `read`. -/
theorem getUserSettings_parse_failure_names_path (st : State) (sp : FsPath)
    (ic : Option Bool) (raw : String)
    (hcm : st.settingsCache = none ∨ ic = some true)
    (hf : lookupKey st.fs.files sp = some (.invalid raw)) :
    ∃ pre post, getUserSettings st (some sp) ic =
      (.error (pre ++ sp ++ post), st, [.access sp, .read sp]) := by
  refine ⟨"Error parsing n8n-config file \"",
    "\". It does not seem to be valid JSON.", ?_⟩
  rw [getUserSettings_disk_invalid st sp ic raw hcm hf]
  rfl

/-- C7, witness: a concrete store holding `"\x7bnot valid json"` at the
resolved path fails with the path named in the error. -/
theorem getUserSettings_parse_failure_names_path_witness :
    ∃ pre post, getUserSettings invalidFileState (some basePath) none =
      (.error (pre ++ basePath ++ post), invalidFileState,
        [.access basePath, .read basePath]) :=
  getUserSettings_parse_failure_names_path invalidFileState basePath none
    "\x7bnot valid json" (Or.inl rfl) rfl

/-- C8: `writeUserSettings` creates the missing parent directory exactly
one level deep: the write succeeds when only the immediate parent folder of
the settings path is missing (it gets created), and fails when the
grandparent folder is missing as well. -/
theorem write_dir_creation_one_level :
    (∀ (st : State) (S : SettingsDoc) (sp : FsPath),
      fsAccessOk st.fs (dirname sp) = false →
      st.fs.dirs.contains (dirname (dirname sp)) = true →
      st.fs.dirs.contains sp = false →
      sp ≠ dirname sp →
      ∃ st', writeUserSettings st S (some sp) =
        (.ok S, st', [.access (dirname sp), .mkdir (dirname sp), .write sp]))
    ∧
    (∀ (st : State) (S : SettingsDoc) (sp : FsPath),
      fsAccessOk st.fs (dirname sp) = false →
      st.fs.dirs.contains (dirname (dirname sp)) = false →
      ∃ e, writeUserSettings st S (some sp) =
        (.error e, st, [.access (dirname sp), .mkdir (dirname sp)])) := by
  constructor
  · intro st S sp h1 h2 h3 h4
    exact ⟨_, writeUserSettings_parent_missing_ok st S sp h1 h2 h3 h4⟩
  · intro st S sp h1 h2
    exact ⟨_, writeUserSettings_grandparent_missing_error st S sp h1 h2⟩

/-- C8, witness: with only `/home/u/.n8n` missing the concrete write
succeeds and creates it; with `/home/u` missing too, it fails. -/
theorem write_dir_creation_one_level_witness :
    (∃ st', writeUserSettings missingParentState [("x", .num 1)] (some basePath) =
      (.ok [("x", .num 1)], st',
        [.access "/home/u/.n8n", .mkdir "/home/u/.n8n", .write basePath])) ∧
    (∃ e, writeUserSettings missingGrandparentState [("x", .num 1)] (some basePath) =
      (.error e, missingGrandparentState,
        [.access "/home/u/.n8n", .mkdir "/home/u/.n8n"])) := by
  constructor
  · exact write_dir_creation_one_level.1 missingParentState [("x", .num 1)] basePath
      rfl rfl rfl (by decide)
  · exact write_dir_creation_one_level.2 missingGrandparentState [("x", .num 1)] basePath
      rfl rfl

theorem lookupKey_of_forall_ne {kk aa : Type} [DecidableEq kk] {l : List (kk × aa)} {k : kk}
    (h : ∀ p ∈ l, p.1 ≠ k) : lookupKey l k = none := by
  induction l with
  | nil => rfl
  | cons p rest ih =>
      obtain ⟨a, b⟩ := p
      have ha : a ≠ k := h (a, b) (List.mem_cons_self _ _)
      rw [lookupKey_cons, if_neg ha]
      exact ih fun q hq => h q (List.mem_cons_of_mem _ hq)

/-- C9: a successful write replaces the cache wholesale with the written
document's value (the deep-copy value of the caller's object at write
time); and, in the reference-heap model of the cache assignment, the cache
cell is a freshly allocated object distinct from the caller's reference,
so a later in-place mutation of the caller's object leaves the cached
document unchanged. -/
theorem write_cache_defensive_copy :
    (∀ (st : State) (S d : SettingsDoc) (sp : Option FsPath) (st' : State) (evs : List FsEvent),
      writeUserSettings st S sp = (.ok d, st', evs) → st'.settingsCache = some S)
    ∧
    (∀ (h : Heap) (r : Nat) (doc : SettingsDoc), h.WF → heapGet h r = some doc →
      heapGet (cacheAssignDeepCopy h r).1 (cacheAssignDeepCopy h r).2 = some doc ∧
      (cacheAssignDeepCopy h r).2 ≠ r ∧
      ∀ d' : SettingsDoc,
        heapGet (heapSet (cacheAssignDeepCopy h r).1 r d') (cacheAssignDeepCopy h r).2
          = some doc) := by
  constructor
  · intro st S d sp st' evs h
    exact (writeUserSettings_ok_inv h).2.1
  · intro h r doc hwf hget
    have hfresh : lookupKey h.cells h.nextRef = none :=
      lookupKey_of_forall_ne (fun p hp => Nat.ne_of_lt (hwf p hp))
    have hne : h.nextRef ≠ r := by
      intro he
      rw [heapGet] at hget
      rw [he, hget] at hfresh
      exact absurd hfresh (by simp)
    have hgd : (heapGet h r).getD [] = doc := by rw [hget]; rfl
    have hcells : (cacheAssignDeepCopy h r).1.cells = h.cells ++ [(h.nextRef, doc)] := by
      simp [cacheAssignDeepCopy, heapAlloc, hgd]
    have href : (cacheAssignDeepCopy h r).2 = h.nextRef := rfl
    have hmain : heapGet (cacheAssignDeepCopy h r).1 (cacheAssignDeepCopy h r).2 = some doc := by
      rw [heapGet, hcells, href, lookupKey_append, hfresh]
      rw [lookupKey_cons, if_pos rfl]
    refine ⟨hmain, hne, ?_⟩
    intro d'
    rw [heapGet, heapSet]
    dsimp only
    rw [hcells, href, lookupKey_map_overwrite, if_neg (fun he => hne he.symm),
      lookupKey_append, hfresh]
    rw [lookupKey_cons, if_pos rfl]

/-- C9, witness: in the concrete run the cache cell holds the written value
after the caller's object is mutated, and in the main model a concrete
write caches the written document. -/
theorem write_cache_defensive_copy_witness :
    heapGet (heapSet (cacheAssignDeepCopy testHeap 0).1 0 [("a", .num 99)])
        (cacheAssignDeepCopy testHeap 0).2 = some [("a", Value.num 1)] ∧
    (writeUserSettings baseState [("x", .str "v")] none).2.1.settingsCache
        = some [("x", .str "v")] := by
  constructor
  · have hwf : testHeap.WF := by
      intro p hp
      rcases List.mem_singleton.mp hp with rfl
      decide
    exact (write_cache_defensive_copy.2 testHeap 0 [("a", .num 1)] hwf rfl).2.2 [("a", .num 99)]
  · exact write_cache_defensive_copy.1 baseState [("x", .str "v")] [("x", .str "v")] none
      (writeUserSettings baseState [("x", .str "v")] none).2.1
      (writeUserSettings baseState [("x", .str "v")] none).2.2 rfl

/-- C10: when `getUserSettings` fails — in particular on a file whose
content is not valid JSON — the in-memory cache keeps whatever value,
including absent, it had before the call. -/
theorem getUserSettings_error_cache_unchanged (st : State) (sp : Option FsPath)
    (ic : Option Bool) (raw e : String) (st' : State) (evs : List FsEvent)
    (hf : lookupKey st.fs.files (sp.getD (getUserSettingsPath st.env)) = some (.invalid raw))
    (h : getUserSettings st sp ic = (.error e, st', evs)) :
    st'.settingsCache = st.settingsCache := by
  rw [getUserSettings_error_inv h]

/-- C10, witness: the concrete failing load on the ill-formed file leaves
the (empty) cache exactly as it was. -/
theorem getUserSettings_error_cache_unchanged_witness :
    (getUserSettings invalidFileState none none).2.1.settingsCache
      = invalidFileState.settingsCache :=
  getUserSettings_error_cache_unchanged invalidFileState none none "\x7bnot valid json"
    (parseErrorMessage basePath) (getUserSettings invalidFileState none none).2.1
    (getUserSettings invalidFileState none none).2.2 rfl rfl
